import Mathlib

/-!
Shallow embedding of the compaction-1d core, from src/source/misc.py and
src/source/solvers.py.  Field values, physical parameters and vertex
coordinates are modelled as rationals; nodal arrays as lists of rationals.
The external finite-element machinery (dolfinx / PETSc / scipy) is an
out-of-scope collaborator; where a result of an external solve is needed it
is modelled from the spec and that is recorded in the doc comment of the
corresponding definition.  The scalar parameters imported from the params
module (which is not part of src/) appear as explicit arguments or as
fields of a Params bundle.
-/

/-- Python's t**0.5 as it occurs in both max definitions, where t is the
square (f1-f2)**2: the exact square root of a square, namely the absolute
value.  sqrt_sq x stands for ((x)**2)**0.5. -/
def sqrt_sq (x : ℚ) : ℚ := |x|

namespace misc

/-- misc.py, K: (phi**a)/((1-phi)**b), the reciprocal relative
permeability.  The exponents a and b come from the params module, which is
not under src/; modelled from the spec (the constitutive-law exponents of
the configuration bundle) as natural numbers. -/
def K (a b : ℕ) (phi : ℚ) : ℚ := (phi ^ a) / ((1 - phi) ^ b)

/-- misc.py, max: 0.5*(f1+f2 + ((f1-f2)**2)**0.5), the smooth maximum used
to enforce positive porosity. -/
def max (f1 f2 : ℚ) : ℚ := 0.5 * (f1 + f2 + sqrt_sq (f1 - f2))

/-- misc.py, C: the coefficient on dw/dz in the weak form,
(4/3 + 1/phi)/(4/3 + 1/phi0). -/
def C (phi phi0 : ℚ) : ℚ := (4 / 3 + 1 / phi) / (4 / 3 + 1 / phi0)

/-- numpy arr.min() on a nonempty array (the empty case, which numpy
rejects, is mapped to 0). -/
def arrMin : List ℚ → ℚ
  | [] => 0
  | z :: t => t.foldl Min.min z

/-- numpy arr.max() on a nonempty array (the empty case, which numpy
rejects, is mapped to 0). -/
def arrMax : List ℚ → ℚ
  | [] => 0
  | z :: t => t.foldl Max.max z

/-- np.linspace lo hi num: num evenly spaced points from lo to hi with
step (hi-lo)/(num-1). -/
def linspace (lo hi : ℚ) (num : ℕ) : List ℚ :=
  (List.range num).map (fun k : ℕ => lo + (hi - lo) * k / ((num : ℚ) - 1))

/-- the linear (convex) combination used by one-dimensional piecewise
linear interpolation. -/
def lin_interp (t v1 v2 : ℚ) : ℚ := (1 - t) * v1 + t * v2

/-- scipy griddata with method linear in one dimension, evaluated at one
query point, for nodes listed in increasing coordinate order: find the
first interval whose right end is at or past the query and interpolate
linearly inside it (0 on an empty node list, where scipy yields nan). -/
def interpAt : List (ℚ × ℚ) → ℚ → ℚ
  | [], _ => 0
  | [(_, v1)], _ => v1
  | (z1, v1) :: (z2, v2) :: tl, zq =>
    if zq ≤ z2 then lin_interp ((zq - z1) / (z2 - z1)) v1 v2
    else interpAt ((z2, v2) :: tl) zq

/-- scipy.interpolate.griddata(points, values, points_i, method=linear):
one interpolated value per query point. -/
def griddata (points values pts_i : List ℚ) : List ℚ :=
  pts_i.map (interpAt (points.zip values))

/-- misc.py, interp: sample a nodal field (values vals at the mesh
coordinates zs) onto the uniform grid Z = np.linspace(z.min(), z.max(),
nz+1) and return (points_i, F) exactly as the source does. -/
def interp (vals zs : List ℚ) (nz : ℕ) : List ℚ × List ℚ :=
  let Z := linspace (arrMin zs) (arrMax zs) (nz + 1)
  (Z, griddata zs vals Z)

/-- Modelled from the spec: the auxiliary 1-D Laplace solve inside
move_mesh (a dolfinx LinearProblem, an external collaborator per the spec)
with Dirichlet data disp = w_top at z = H and disp = 0 at z = 0.  Its
exact solution is the linear function w_top * z / H, which lies in the P1
trial space, so the Galerkin solution agrees with it at every vertex. -/
def disp (H w_top z : ℚ) : ℚ := w_top * z / H

/-- misc.py, move_mesh: H = domain.geometry.x.max(), and every vertex
coordinate is advanced by z += dt*disp.  w_top (the top nodal value of the
w component of sol) and dt (from params) are parameters. -/
def move_mesh (dt w_top : ℚ) (zs : List ℚ) : List ℚ :=
  zs.map (fun z => z + dt * disp (arrMax zs) w_top z)

end misc

namespace solvers

/-- solvers.py, K: (phi**a)/((1-phi)**b), textually duplicated from
misc.py.  The exponents a and b are again the params-module values,
modelled as natural numbers. -/
def K (a b : ℕ) (phi : ℚ) : ℚ := (phi ^ a) / ((1 - phi) ^ b)

/-- solvers.py, max: 0.5*(f1+f2 + ((f1-f2)**2)**0.5), textually duplicated
from misc.py. -/
def max (f1 f2 : ℚ) : ℚ := 0.5 * (f1 + f2 + sqrt_sq (f1 - f2))

/-- the bc_top argument of weak_form and solve_pde: a dict with a string
discriminant under key type and a number under key value. -/
structure BCtop where
  type : String
  value : ℚ

/-- the scalar parameters read from the params module, which is not under
src/; modelled from the spec's read-only configuration bundle.  The
constitutive exponents a and b are taken as natural numbers. -/
structure Params where
  a : ℕ
  b : ℕ
  alpha : ℚ
  dt : ℚ
  eps : ℚ
  theta : ℚ
  phi_min : ℚ

/-- a point evaluation of the symbolic quantities entering weak_form: the
values of the trial, test and previous-step fields, their spatial
derivatives Dx(., 0), and the weights contributed by the measures dx and
ds.  Dx is linear, so Dx(theta*u + (1-theta)*u_n, 0) is
theta*Dx(u,0) + (1-theta)*Dx(u_n,0). -/
structure FormEval where
  w : ℚ
  w_t : ℚ
  w_n : ℚ
  phi : ℚ
  phi_t : ℚ
  phi_n : ℚ
  Dw : ℚ
  Dw_n : ℚ
  Dw_t : ℚ
  Dphi : ℚ
  Dphi_n : ℚ
  dx : ℚ
  ds : ℚ

/-- solvers.py, weak_form: the residual F_w + F_phi of the Darcy-Stokes
problem, evaluated at a FormEval.  The traction term
bc_top.value * w_t * ds is added to F_w exactly when bc_top.type is the
string stress. -/
def weak_form (p : Params) (bc_top : BCtop) (e : FormEval) : ℚ :=
  let w_theta := p.theta * e.w + (1 - p.theta) * e.w_n
  let phi_theta := p.theta * e.phi + (1 - p.theta) * e.phi_n
  let Dw_theta := p.theta * e.Dw + (1 - p.theta) * e.Dw_n
  let Dphi_theta := p.theta * e.Dphi + (1 - p.theta) * e.Dphi_n
  let F_w0 := (p.eps ^ 2 / K p.a p.b e.phi) * e.w * e.w_t * e.dx
      + (1 - e.phi) * e.Dw * e.Dw_t * e.dx
      + (1 - e.phi) * p.alpha * e.w_t * e.dx
  let F_w := if bc_top.type = "stress" then F_w0 + bc_top.value * e.w_t * e.ds else F_w0
  let F_phi := (e.phi - e.phi_n) * e.phi_t * e.dx
      + p.dt * w_theta * Dphi_theta * e.phi_t * e.dx
      - p.dt * (1 - phi_theta) * Dw_theta * e.phi_t * e.dx
      + (e.phi - solvers.max p.phi_min e.phi) * e.phi_t * e.dx
  F_w + F_phi

/-- weak_form with the optional traction line removed: the dx-part of F_w
plus all of F_phi.  Named separately so the boundary-condition dispatch
can be stated as an equation against it. -/
def weak_form_interior (p : Params) (e : FormEval) : ℚ :=
  let w_theta := p.theta * e.w + (1 - p.theta) * e.w_n
  let phi_theta := p.theta * e.phi + (1 - p.theta) * e.phi_n
  let Dw_theta := p.theta * e.Dw + (1 - p.theta) * e.Dw_n
  let Dphi_theta := p.theta * e.Dphi + (1 - p.theta) * e.Dphi_n
  let F_w0 := (p.eps ^ 2 / K p.a p.b e.phi) * e.w * e.w_t * e.dx
      + (1 - e.phi) * e.Dw * e.Dw_t * e.dx
      + (1 - e.phi) * p.alpha * e.w_t * e.dx
  let F_phi := (e.phi - e.phi_n) * e.phi_t * e.dx
      + p.dt * w_theta * Dphi_theta * e.phi_t * e.dx
      - p.dt * (1 - phi_theta) * Dw_theta * e.phi_t * e.dx
      + (e.phi - solvers.max p.phi_min e.phi) * e.phi_t * e.dx
  F_w0 + F_phi

/-- the coefficient (phi - max(phi_min, phi)) multiplying phi_t*dx in the
penalty line of F_phi (solvers.py, the constraint phi > phi_min). -/
def penalty_coeff (phi_min phi : ℚ) : ℚ := phi - solvers.max phi_min phi

/-- a Dirichlet condition assembled by solve_pde on the w component of the
mixed space: wBase is w = 0 at z = 0, wTop v is w = v at z = H. -/
inductive Dirichlet where
  | wBase : Dirichlet
  | wTop : ℚ → Dirichlet
deriving DecidableEq

/-- solvers.py, solve_pde boundary-condition assembly: bcs = [bc_b, bc_t]
when bc_top.type is the string velocity, else bcs = [bc_b]. -/
def solve_pde_bcs (bc_top : BCtop) : List Dirichlet :=
  if bc_top.type = "velocity" then [Dirichlet.wBase, Dirichlet.wTop bc_top.value]
  else [Dirichlet.wBase]

/-- solvers.py, solve_pde clamp phase on the nodal porosity array:
Phi.x.array[Phi.x.array < phi_min] = 1.01*phi_min, every other entry kept
unchanged. -/
def clamp_phi (phi_min : ℚ) (arr : List ℚ) : List ℚ :=
  arr.map (fun x => if x < phi_min then 1.01 * phi_min else x)

/-- np.zeros((nt, nz)): nt rows of nz zeros. -/
def np_zeros (nt nz : ℕ) : List (List ℚ) :=
  List.replicate nt (List.replicate nz 0)

/-- numpy row assignment arr[i, :] = v: succeeds only when v has exactly
the row's length, otherwise numpy raises a broadcast ValueError, modelled
as none. -/
def set_row (mat : List (List ℚ)) (i : ℕ) (v : List ℚ) : Option (List (List ℚ)) :=
  match mat.get? i with
  | none => none
  | some row => if v.length = row.length then some (mat.set i v) else none

/-- the recording part of solvers.py solve: fields i abstracts the nodal
data (w values, phi values, vertex coordinates) available after the
external nonlinear solve of step i; each iteration samples w and phi
through misc.interp onto the output grid and writes row i of the three
arrays.  The first argument i is the loop index, the second the number of
remaining iterations. -/
def record_loop (nz : ℕ) (fields : ℕ → List ℚ × List ℚ × List ℚ) :
    ℕ → ℕ → List (List ℚ) × List (List ℚ) × List (List ℚ) →
    Option (List (List ℚ) × List (List ℚ) × List (List ℚ))
  | _, 0, arrs => some arrs
  | i, n + 1, (w_arr, phi_arr, z_arr) =>
    let f := fields i
    let zw := misc.interp f.1 f.2.2 nz
    let zphi := misc.interp f.2.1 f.2.2 nz
    (set_row w_arr i zw.2).bind fun w2 =>
      (set_row phi_arr i zphi.2).bind fun p2 =>
        (set_row z_arr i zw.1).bind fun z2 =>
          record_loop nz fields (i + 1) n (w2, p2, z2)

/-- solvers.py, solve, restricted to its array recording: allocate the
three output arrays with np.zeros((nt, nz)) and run the recording loop for
nt steps. -/
def solve_record (nt nz : ℕ) (fields : ℕ → List ℚ × List ℚ × List ℚ) :
    Option (List (List ℚ) × List (List ℚ) × List (List ℚ)) :=
  record_loop nz fields 0 nt (np_zeros nt nz, np_zeros nt nz, np_zeros nt nz)

/-- the two nodal fields held by one mixed solution object. -/
structure Sol where
  w : List ℚ
  phi : List ℚ
deriving DecidableEq

/-- writing through a reference: the store with the object at address r
replaced by s and every other object untouched. -/
def update_ref (h : ℕ → Sol) (r : ℕ) (s : Sol) : ℕ → Sol :=
  fun q => if q = r then s else h q

/-- solvers.py solve, the full loop body over a store of solution objects
and the three recording arrays.  sol_n = initial binds the caller's object
itself (no copy), so r is the address of that object.  Iteration i first
computes sol = solve_pde(domain, sol_n, bc_top), abstracted as step i
applied to the object's current value; then samples sol's two nodal
fields through misc.interp on the current vertex coordinates (abstracted
as coords i, since the mesh is moved between steps) and assigns row i of
w_arr, phi_arr and z_arr; and only after that does
sol_n.sub(0).interpolate(sol.sub(0)) with
sol_n.sub(1).interpolate(sol.sub(1)) write both components back in place
through the sol_n reference.  A failing row assignment is the numpy
broadcast ValueError: the loop aborts, returning the store exactly as it
stands (the write-back of that iteration never runs) and no arrays.  The
first argument i is the loop index, the second the number of remaining
iterations. -/
def solve_loop_full (nz : ℕ) (step : ℕ → Sol → Sol) (coords : ℕ → List ℚ) (r : ℕ) :
    ℕ → ℕ → (ℕ → Sol) → List (List ℚ) × List (List ℚ) × List (List ℚ) →
    (ℕ → Sol) × Option (List (List ℚ) × List (List ℚ) × List (List ℚ))
  | _, 0, h, arrs => (h, some arrs)
  | i, n + 1, h, (w_arr, phi_arr, z_arr) =>
    let sol := step i (h r)
    let zw := misc.interp sol.w (coords i) nz
    let zphi := misc.interp sol.phi (coords i) nz
    match set_row w_arr i zw.2, set_row phi_arr i zphi.2, set_row z_arr i zphi.1 with
    | some w2, some p2, some z2 =>
      solve_loop_full nz step coords r (i + 1) n (update_ref h r sol) (w2, p2, z2)
    | _, _, _ => (h, none)

/-- solvers.py, solve: allocate the three arrays with np.zeros((nt, nz))
and run the full loop for nt steps starting from the caller's initial
object at address initial. -/
def solve_full (nt nz : ℕ) (step : ℕ → Sol → Sol) (coords : ℕ → List ℚ)
    (h : ℕ → Sol) (initial : ℕ) :
    (ℕ → Sol) × Option (List (List ℚ) × List (List ℚ) × List (List ℚ)) :=
  solve_loop_full nz step coords initial 0 nt h (np_zeros nt nz, np_zeros nt nz, np_zeros nt nz)

/-- the pure nt-fold composition of the per-step solves, starting the
index count at i: the value the final time step produces. -/
def iter_steps (step : ℕ → Sol → Sol) : ℕ → ℕ → Sol → Sol
  | _, 0, s => s
  | i, n + 1, s => iter_steps step (i + 1) n (step i s)

end solvers

lemma smooth_max_of_right_le {f1 f2 : ℚ} (h : f2 ≤ f1) : solvers.max f1 f2 = f1 := by
  unfold solvers.max sqrt_sq
  rw [abs_of_nonneg (by linarith : (0 : ℚ) ≤ f1 - f2)]
  have h05 : (0.5 : ℚ) = 1 / 2 := by norm_num
  rw [h05]; ring

lemma smooth_max_of_left_le {f1 f2 : ℚ} (h : f1 ≤ f2) : solvers.max f1 f2 = f2 := by
  unfold solvers.max sqrt_sq
  rw [abs_of_nonpos (by linarith : f1 - f2 ≤ (0 : ℚ))]
  have h05 : (0.5 : ℚ) = 1 / 2 := by norm_num
  rw [h05]; ring

/-- Claim C6: the smooth max is commutative, idempotent, and bounds both
of its arguments from above. -/
theorem smooth_max_spec (f f1 f2 : ℚ) :
    misc.max f1 f2 = misc.max f2 f1 ∧ misc.max f f = f
    ∧ f1 ≤ misc.max f1 f2 ∧ f2 ≤ misc.max f1 f2 := by
  have h05 : (0.5 : ℚ) = 1 / 2 := by norm_num
  refine ⟨?_, ?_, ?_, ?_⟩
  · unfold misc.max sqrt_sq
    rw [abs_sub_comm]; ring
  · unfold misc.max sqrt_sq
    rw [sub_self, abs_zero, h05]; ring
  · unfold misc.max sqrt_sq
    have h1 := le_abs_self (f1 - f2)
    rw [h05]; linarith
  · unfold misc.max sqrt_sq
    have h1 := neg_abs_le (f1 - f2)
    rw [h05]; linarith

/-- Claim C8: the two copies of K (misc.py and solvers.py) compute the
same function, and so do the two copies of max. -/
theorem duplicate_helpers_agree :
    (∀ (a b : ℕ) (phi : ℚ), misc.K a b phi = solvers.K a b phi)
    ∧ (∀ f1 f2 : ℚ, misc.max f1 f2 = solvers.max f1 f2) :=
  ⟨fun _ _ _ => rfl, fun _ _ => rfl⟩

/-- Claim C4: the penalty coefficient phi - max(phi_min, phi) of the
residual vanishes exactly when phi is at or above the porosity floor, and
equals the strictly negative phi - phi_min below it. -/
theorem penalty_coeff_floor (pm phi : ℚ) :
    (pm ≤ phi → solvers.penalty_coeff pm phi = 0)
    ∧ (phi < pm → solvers.penalty_coeff pm phi = phi - pm
        ∧ solvers.penalty_coeff pm phi < 0) := by
  constructor
  · intro h
    unfold solvers.penalty_coeff
    rw [smooth_max_of_left_le h]; ring
  · intro h
    have he : solvers.penalty_coeff pm phi = phi - pm := by
      unfold solvers.penalty_coeff
      rw [smooth_max_of_right_le (le_of_lt h)]
    exact ⟨he, by rw [he]; linarith⟩

theorem penalty_coeff_floor_witness :
    ((1 : ℚ) / 10 ≤ 1 / 2 ∧ solvers.penalty_coeff (1 / 10) (1 / 2) = 0)
    ∧ ((1 : ℚ) / 20 < 1 / 10 ∧ solvers.penalty_coeff (1 / 10) (1 / 20) < 0) :=
  ⟨⟨by norm_num, (penalty_coeff_floor (1 / 10) (1 / 2)).1 (by norm_num)⟩,
   ⟨by norm_num, ((penalty_coeff_floor (1 / 10) (1 / 20)).2 (by norm_num)).2⟩⟩

/-- Claim C7: on the open interval (phi_min, 1) with a nonnegative floor,
the permeability law K(phi) = phi^a/(1-phi)^b is strictly positive and
monotonically increasing. -/
theorem K_pos_monotone (a b : ℕ) (pm phi1 phi2 : ℚ) (hpm : 0 ≤ pm)
    (h1l : pm < phi1) (h1u : phi1 < 1) (h2l : pm < phi2) (h2u : phi2 < 1)
    (h12 : phi1 ≤ phi2) :
    0 < misc.K a b phi1 ∧ 0 < misc.K a b phi2
    ∧ misc.K a b phi1 ≤ misc.K a b phi2 := by
  have hp1 : 0 < phi1 := lt_of_le_of_lt hpm h1l
  have hp2 : 0 < phi2 := lt_of_le_of_lt hpm h2l
  have hq1 : 0 < 1 - phi1 := by linarith
  have hq2 : 0 < 1 - phi2 := by linarith
  refine ⟨div_pos (pow_pos hp1 a) (pow_pos hq1 b),
    div_pos (pow_pos hp2 a) (pow_pos hq2 b), ?_⟩
  unfold misc.K
  exact div_le_div₀ (pow_nonneg hp2.le a) (pow_le_pow_left₀ hp1.le h12 a)
    (pow_pos hq2 b) (pow_le_pow_left₀ hq2.le (by linarith) b)

theorem K_pos_monotone_witness :
    0 < misc.K 2 1 (1 / 2) ∧ 0 < misc.K 2 1 (3 / 4)
    ∧ misc.K 2 1 (1 / 2) ≤ misc.K 2 1 (3 / 4) :=
  K_pos_monotone 2 1 (1 / 10) (1 / 2) (3 / 4) (by norm_num) (by norm_num)
    (by norm_num) (by norm_num) (by norm_num) (by norm_num)

lemma foldl_min_ge (pm : ℚ) :
    ∀ (l : List ℚ) (z : ℚ), pm ≤ z → (∀ x ∈ l, pm ≤ x) → pm ≤ l.foldl Min.min z := by
  intro l
  induction l with
  | nil => intro z hz _; simpa using hz
  | cons a t ih =>
    intro z hz hl
    simp only [List.foldl_cons]
    exact ih (Min.min z a) (le_min hz (hl a (by simp)))
      (fun x hx => hl x (by simp [hx]))

/-- Claim C2: the clamp phase overwrites exactly the nodes below phi_min
with 1.01*phi_min and keeps the rest, so afterwards every nodal value is
at least phi_min, hence so is the minimum; and any convex (piecewise
linear) resampling of clamped values stays at or above phi_min, so each
recorded row respects the floor. -/
theorem clamp_phi_floor (pm : ℚ) (hpm : 0 ≤ pm) (arr : List ℚ) :
    List.Forall₂ (fun x y => (x < pm → y = 1.01 * pm) ∧ (pm ≤ x → y = x))
      arr (solvers.clamp_phi pm arr)
    ∧ (∀ x ∈ solvers.clamp_phi pm arr, pm ≤ x)
    ∧ (arr ≠ [] → pm ≤ misc.arrMin (solvers.clamp_phi pm arr))
    ∧ (∀ t x y : ℚ, 0 ≤ t → t ≤ 1 → pm ≤ x → pm ≤ y → pm ≤ misc.lin_interp t x y) := by
  have hup : pm ≤ 1.01 * pm := by nlinarith
  have hmem : ∀ x ∈ solvers.clamp_phi pm arr, pm ≤ x := by
    intro x hx
    simp only [solvers.clamp_phi, List.mem_map] at hx
    obtain ⟨c, _, rfl⟩ := hx
    by_cases hlt : c < pm
    · rw [if_pos hlt]; exact hup
    · rw [if_neg hlt]; exact not_lt.mp hlt
  refine ⟨?_, hmem, ?_, ?_⟩
  · unfold solvers.clamp_phi
    rw [List.forall₂_map_right_iff, List.forall₂_same]
    intro x _
    refine ⟨fun hlt => by rw [if_pos hlt], fun hge => by rw [if_neg (not_lt.mpr hge)]⟩
  · intro hne
    have hne2 : solvers.clamp_phi pm arr ≠ [] := by
      simpa [solvers.clamp_phi] using hne
    obtain ⟨c, t, hct⟩ := List.exists_cons_of_ne_nil hne2
    rw [hct]
    simp only [misc.arrMin]
    refine foldl_min_ge pm t c (hmem c ?_) (fun x hx => hmem x ?_)
    · rw [hct]; exact List.mem_cons_self c t
    · rw [hct]; exact List.mem_cons_of_mem c hx
  · intro t x y ht0 ht1 hx hy
    unfold misc.lin_interp
    nlinarith [mul_le_mul_of_nonneg_left hx (by linarith : (0 : ℚ) ≤ 1 - t),
      mul_le_mul_of_nonneg_left hy ht0]

theorem clamp_phi_floor_witness :
    (0 : ℚ) ≤ 1 / 10
    ∧ (1 / 10 : ℚ) ≤ misc.arrMin (solvers.clamp_phi (1 / 10) [1 / 20, 1 / 2]) :=
  ⟨by norm_num,
   (clamp_phi_floor (1 / 10) (by norm_num) [1 / 20, 1 / 2]).2.2.1 (by simp)⟩

/-- Claim C5: mesh motion advances every vertex by z + dt*disp, with disp
the Laplace displacement interpolating 0 at the base and w_top at the top;
when dt is below the stability threshold (the per-step scaling factor
1 + dt*w_top/H stays positive) strictly increasing vertex coordinates stay
strictly increasing. -/
theorem move_mesh_preserves_order (dt w_top : ℚ) (zs : List ℚ)
    (hchain : List.Chain' (fun x y : ℚ => x < y) zs)
    (hstab : 0 < 1 + dt * w_top / misc.arrMax zs) :
    List.Chain' (fun x y : ℚ => x < y) (misc.move_mesh dt w_top zs) := by
  unfold misc.move_mesh
  rw [List.chain'_map]
  refine List.Chain'.imp ?_ hchain
  intro a b hab
  have key : 0 < (b + dt * misc.disp (misc.arrMax zs) w_top b)
      - (a + dt * misc.disp (misc.arrMax zs) w_top a) := by
    have hfac : (b + dt * misc.disp (misc.arrMax zs) w_top b)
        - (a + dt * misc.disp (misc.arrMax zs) w_top a)
        = (b - a) * (1 + dt * w_top / misc.arrMax zs) := by
      unfold misc.disp; ring
    rw [hfac]
    exact mul_pos (by linarith) hstab
  linarith

theorem move_mesh_preserves_order_witness :
    List.Chain' (fun x y : ℚ => x < y) ([0, 1, 2] : List ℚ)
    ∧ 0 < 1 + (1 / 10 : ℚ) * (-1) / misc.arrMax ([0, 1, 2] : List ℚ)
    ∧ List.Chain' (fun x y : ℚ => x < y) (misc.move_mesh (1 / 10) (-1) ([0, 1, 2] : List ℚ)) :=
  ⟨by norm_num [List.chain'_cons, List.chain'_singleton],
   by norm_num [misc.arrMax, List.foldl_cons, List.foldl_nil, max_def],
   move_mesh_preserves_order (1 / 10) (-1) [0, 1, 2]
     (by norm_num [List.chain'_cons, List.chain'_singleton])
     (by norm_num [misc.arrMax, List.foldl_cons, List.foldl_nil, max_def])⟩

lemma velocity_ne_stress : ("velocity" : String) ≠ "stress" := by decide

/-- Claim C3: solve_pde always applies the base Dirichlet condition w = 0
at z = 0; with a velocity top condition it additionally applies the
Dirichlet condition w = bc_top.value at z = H and weak_form carries no
traction term; with a stress top condition it applies no top Dirichlet
condition and weak_form carries the extra traction term
bc_top.value * w_t * ds. -/
theorem bc_dispatch (p : solvers.Params) (bc : solvers.BCtop) :
    solvers.Dirichlet.wBase ∈ solvers.solve_pde_bcs bc
    ∧ (bc.type = "velocity" →
        solvers.solve_pde_bcs bc
          = [solvers.Dirichlet.wBase, solvers.Dirichlet.wTop bc.value]
        ∧ ∀ e, solvers.weak_form p bc e = solvers.weak_form_interior p e)
    ∧ (bc.type = "stress" →
        solvers.solve_pde_bcs bc = [solvers.Dirichlet.wBase]
        ∧ ∀ e, solvers.weak_form p bc e
            = solvers.weak_form_interior p e + bc.value * e.w_t * e.ds) := by
  refine ⟨?_, ?_, ?_⟩
  · unfold solvers.solve_pde_bcs
    split <;> simp
  · intro hv
    refine ⟨by simp [solvers.solve_pde_bcs, hv], fun e => ?_⟩
    simp [solvers.weak_form, solvers.weak_form_interior, hv, velocity_ne_stress]
  · intro hs
    have hv : bc.type ≠ "velocity" := by
      rw [hs]; exact fun h => velocity_ne_stress h.symm
    refine ⟨by simp [solvers.solve_pde_bcs, hv], fun e => ?_⟩
    simp only [solvers.weak_form, solvers.weak_form_interior, hs, if_pos]
    ring

theorem bc_dispatch_witness :
    solvers.solve_pde_bcs ⟨"velocity", -1⟩
      = [solvers.Dirichlet.wBase, solvers.Dirichlet.wTop (-1)]
    ∧ solvers.solve_pde_bcs ⟨"stress", 3⟩ = [solvers.Dirichlet.wBase] :=
  ⟨((bc_dispatch ⟨2, 1, 1, 1 / 10, 1 / 100, 1 / 2, 1 / 10⟩ ⟨"velocity", -1⟩).2.1 rfl).1,
   ((bc_dispatch ⟨2, 1, 1, 1 / 10, 1 / 100, 1 / 2, 1 / 10⟩ ⟨"stress", 3⟩).2.2 rfl).1⟩

/-- Claim C10: for a bc_top whose type string is neither velocity nor
stress, solve_pde assembles only the base Dirichlet condition and
weak_form adds no traction term: the step proceeds with an unconstrained
top boundary instead of raising an error. -/
theorem bc_unknown_type_unconstrained (p : solvers.Params) (bc : solvers.BCtop)
    (hv : bc.type ≠ "velocity") (hs : bc.type ≠ "stress") :
    solvers.solve_pde_bcs bc = [solvers.Dirichlet.wBase]
    ∧ ∀ e, solvers.weak_form p bc e = solvers.weak_form_interior p e := by
  refine ⟨by simp [solvers.solve_pde_bcs, hv], fun e => ?_⟩
  simp [solvers.weak_form, solvers.weak_form_interior, hs]

theorem bc_unknown_type_unconstrained_witness :
    solvers.solve_pde_bcs ⟨"traction", 5⟩ = [solvers.Dirichlet.wBase] :=
  (bc_unknown_type_unconstrained ⟨2, 1, 1, 1 / 10, 1 / 100, 1 / 2, 1 / 10⟩
    ⟨"traction", 5⟩ (by decide) (by decide)).1

lemma interp_snd_length (vals zs : List ℚ) (nz : ℕ) :
    (misc.interp vals zs nz).2.length = nz + 1 := by
  simp only [misc.interp, misc.griddata, misc.linspace]
  rw [List.length_map, List.length_map, List.length_range]

/-- Claim C1: solve is specified to return three (nt, nz+1) arrays, one
row of nz+1 sampled grid values per step, and misc.interp indeed always
produces nz+1 samples; but the code allocates the arrays as
np.zeros((nt, nz)), so the very first row assignment w_arr[i,:] = w_i
is a length mismatch and the recording loop fails (returns none) on every
run with at least one step. -/
theorem solve_record_row_mismatch (nt nz : ℕ)
    (fields : ℕ → List ℚ × List ℚ × List ℚ) (hnt : 0 < nt) :
    solvers.solve_record nt nz fields = none := by
  obtain ⟨m, rfl⟩ : ∃ m, nt = m + 1 := ⟨nt - 1, by omega⟩
  have h1 := interp_snd_length (fields 0).1 (fields 0).2.2 nz
  simp [solvers.solve_record, solvers.record_loop, solvers.set_row,
    solvers.np_zeros, List.replicate_succ, h1]

theorem solve_record_row_mismatch_witness :
    solvers.solve_record 1 2 (fun _ => ([0], [0], [0])) = none :=
  solve_record_row_mismatch 1 2 (fun _ => ([0], [0], [0])) (by norm_num)

lemma interp_fst_length (vals zs : List ℚ) (nz : ℕ) :
    (misc.interp vals zs nz).1.length = nz + 1 := by
  simp only [misc.interp, misc.linspace]
  rw [List.length_map, List.length_range]

lemma solve_full_raises (nt nz : ℕ) (step : ℕ → solvers.Sol → solvers.Sol)
    (coords : ℕ → List ℚ) (h : ℕ → solvers.Sol) (r : ℕ) (hnt : 0 < nt) :
    solvers.solve_full nt nz step coords h r = (h, none) := by
  obtain ⟨m, rfl⟩ : ∃ m, nt = m + 1 := ⟨nt - 1, by omega⟩
  have hlen := interp_snd_length (step 0 (h r)).w (coords 0) nz
  simp [solvers.solve_full, solvers.solve_loop_full, solvers.set_row,
    solvers.np_zeros, List.replicate_succ, hlen]

lemma set_row_full {nz : ℕ} (A : List (List ℚ)) (i : ℕ) (v : List ℚ)
    (hrows : ∀ row ∈ A, row.length = nz + 1) (hi : i < A.length)
    (hv : v.length = nz + 1) :
    solvers.set_row A i v = some (A.set i v) := by
  unfold solvers.set_row
  cases hget : A.get? i with
  | none => exact absurd (List.get?_eq_none.mp hget) (by omega)
  | some row =>
    have hrl := hrows row (List.get?_mem hget)
    simp [hv, hrl]

lemma rows_full_set {nz : ℕ} (A : List (List ℚ)) (i : ℕ) (v : List ℚ)
    (hrows : ∀ row ∈ A, row.length = nz + 1) (hv : v.length = nz + 1) :
    ∀ row ∈ A.set i v, row.length = nz + 1 := by
  intro row hrow
  rcases List.mem_or_eq_of_mem_set hrow with hmem | heq
  · exact hrows row hmem
  · rw [heq]; exact hv

lemma solve_loop_full_ok (nz : ℕ) (step : ℕ → solvers.Sol → solvers.Sol)
    (coords : ℕ → List ℚ) (r : ℕ) :
    ∀ (n i : ℕ) (h : ℕ → solvers.Sol) (A B C : List (List ℚ)),
      (∀ row ∈ A, row.length = nz + 1) → (∀ row ∈ B, row.length = nz + 1) →
      (∀ row ∈ C, row.length = nz + 1) →
      i + n ≤ A.length → i + n ≤ B.length → i + n ≤ C.length →
      (solvers.solve_loop_full nz step coords r i n h (A, B, C)).1 r
          = solvers.iter_steps step i n (h r)
      ∧ (∀ q, q ≠ r →
          (solvers.solve_loop_full nz step coords r i n h (A, B, C)).1 q = h q)
      ∧ (solvers.solve_loop_full nz step coords r i n h (A, B, C)).2.isSome = true := by
  intro n
  induction n with
  | zero =>
    intro i h A B C _ _ _ _ _ _
    exact ⟨rfl, fun q _ => rfl, rfl⟩
  | succ n ih =>
    intro i h A B C hA hB hC hlA hlB hlC
    have hwlen : (misc.interp (step i (h r)).w (coords i) nz).2.length = nz + 1 :=
      interp_snd_length _ _ _
    have hplen : (misc.interp (step i (h r)).phi (coords i) nz).2.length = nz + 1 :=
      interp_snd_length _ _ _
    have hzlen : (misc.interp (step i (h r)).phi (coords i) nz).1.length = nz + 1 :=
      interp_fst_length _ _ _
    have hsA := set_row_full A i (misc.interp (step i (h r)).w (coords i) nz).2
      hA (by omega) hwlen
    have hsB := set_row_full B i (misc.interp (step i (h r)).phi (coords i) nz).2
      hB (by omega) hplen
    have hsC := set_row_full C i (misc.interp (step i (h r)).phi (coords i) nz).1
      hC (by omega) hzlen
    have hunfold : solvers.solve_loop_full nz step coords r i (n + 1) h (A, B, C)
        = solvers.solve_loop_full nz step coords r (i + 1) n
            (solvers.update_ref h r (step i (h r)))
            (A.set i (misc.interp (step i (h r)).w (coords i) nz).2,
             B.set i (misc.interp (step i (h r)).phi (coords i) nz).2,
             C.set i (misc.interp (step i (h r)).phi (coords i) nz).1) := by
      simp only [solvers.solve_loop_full]
      rw [hsA, hsB, hsC]
    have hlA2 : (A.set i (misc.interp (step i (h r)).w (coords i) nz).2).length
        = A.length := List.length_set A _ _
    have hlB2 : (B.set i (misc.interp (step i (h r)).phi (coords i) nz).2).length
        = B.length := List.length_set B _ _
    have hlC2 : (C.set i (misc.interp (step i (h r)).phi (coords i) nz).1).length
        = C.length := List.length_set C _ _
    obtain ⟨ih1, ih2, ih3⟩ := ih (i + 1) (solvers.update_ref h r (step i (h r)))
      (A.set i (misc.interp (step i (h r)).w (coords i) nz).2)
      (B.set i (misc.interp (step i (h r)).phi (coords i) nz).2)
      (C.set i (misc.interp (step i (h r)).phi (coords i) nz).1)
      (rows_full_set A i _ hA hwlen) (rows_full_set B i _ hB hplen)
      (rows_full_set C i _ hC hzlen)
      (by omega) (by omega) (by omega)
    rw [hunfold]
    refine ⟨?_, ?_, ih3⟩
    · rw [ih1]
      have hself : solvers.update_ref h r (step i (h r)) r = step i (h r) := by
        simp [solvers.update_ref]
      rw [hself]
      rfl
    · intro q hq
      rw [ih2 q hq]
      simp [solvers.update_ref, hq]

/-- Claim C9, counterexample: at nt = 1, nz = 2, with a per-step solve
producing fresh fields, solve raises in the recording phase (no arrays
come back) before the first write-back to sol_n ever runs, so the
caller's initial object still holds its old fields and not the final
step's fields, contrary to the claim. -/
theorem solve_no_mutation_counterexample :
    (solvers.solve_full 1 2 (fun _ _ => solvers.Sol.mk [5] [6]) (fun _ => [0])
        (fun _ => solvers.Sol.mk [0] [0]) 0).2 = none
    ∧ (solvers.solve_full 1 2 (fun _ _ => solvers.Sol.mk [5] [6]) (fun _ => [0])
        (fun _ => solvers.Sol.mk [0] [0]) 0).1 0 = solvers.Sol.mk [0] [0]
    ∧ (solvers.solve_full 1 2 (fun _ _ => solvers.Sol.mk [5] [6]) (fun _ => [0])
        (fun _ => solvers.Sol.mk [0] [0]) 0).1 0
      ≠ solvers.iter_steps (fun _ _ => solvers.Sol.mk [5] [6]) 0 1
          (solvers.Sol.mk [0] [0]) := by
  have hfull := solve_full_raises 1 2 (fun _ _ => solvers.Sol.mk [5] [6])
    (fun _ => [0]) (fun _ => solvers.Sol.mk [0] [0]) 0 (by norm_num)
  refine ⟨by rw [hfull], by rw [hfull], ?_⟩
  rw [hfull]
  simp only [solvers.iter_steps]
  simp [solvers.Sol.mk.injEq]

/-- Claim C9 (amended): solve binds sol_n directly to the caller's initial
object without copying, but each iteration reaches the write-back of the
new solution's two components into sol_n only after recording row i; with
the code's np.zeros((nt, nz)) allocation the recording raises on the
first iteration, so for nt at least 1 solve aborts with the store exactly
as it was (the caller's object is never mutated and solve never returns
the final fields); once the rows have the nz+1 length the recording
requires, the loop completes and the caller's initial object is mutated
in place to hold the final time step's (w, phi) fields, with every other
object untouched. -/
theorem solve_alias_after_fix (nt nz : ℕ) (step : ℕ → solvers.Sol → solvers.Sol)
    (coords : ℕ → List ℚ) (h : ℕ → solvers.Sol) (r : ℕ) :
    (0 < nt → solvers.solve_full nt nz step coords h r = (h, none))
    ∧ ((solvers.solve_loop_full nz step coords r 0 nt h
          (solvers.np_zeros nt (nz + 1), solvers.np_zeros nt (nz + 1),
           solvers.np_zeros nt (nz + 1))).1 r
        = solvers.iter_steps step 0 nt (h r)
      ∧ (∀ q, q ≠ r →
          (solvers.solve_loop_full nz step coords r 0 nt h
            (solvers.np_zeros nt (nz + 1), solvers.np_zeros nt (nz + 1),
             solvers.np_zeros nt (nz + 1))).1 q = h q)
      ∧ (solvers.solve_loop_full nz step coords r 0 nt h
          (solvers.np_zeros nt (nz + 1), solvers.np_zeros nt (nz + 1),
           solvers.np_zeros nt (nz + 1))).2.isSome = true) := by
  constructor
  · exact solve_full_raises nt nz step coords h r
  · have hrows : ∀ row ∈ solvers.np_zeros nt (nz + 1), row.length = nz + 1 := by
      intro row hrow
      unfold solvers.np_zeros at hrow
      rw [List.eq_of_mem_replicate hrow]
      exact List.length_replicate _ _
    have hlen : (solvers.np_zeros nt (nz + 1)).length = nt := by
      unfold solvers.np_zeros
      exact List.length_replicate _ _
    exact solve_loop_full_ok nz step coords r nt 0 h _ _ _
      hrows hrows hrows (by omega) (by omega) (by omega)

theorem solve_alias_after_fix_witness :
    solvers.solve_full 1 2 (fun _ _ => solvers.Sol.mk [5] [6]) (fun _ => [0])
      (fun _ => solvers.Sol.mk [0] [0]) 0
      = (fun _ => solvers.Sol.mk [0] [0], none)
    ∧ (solvers.solve_loop_full 2 (fun _ _ => solvers.Sol.mk [5] [6]) (fun _ => [0])
        0 0 1 (fun _ => solvers.Sol.mk [0] [0])
        (solvers.np_zeros 1 3, solvers.np_zeros 1 3, solvers.np_zeros 1 3)).1 7
      = solvers.Sol.mk [0] [0] :=
  ⟨(solve_alias_after_fix 1 2 (fun _ _ => solvers.Sol.mk [5] [6]) (fun _ => [0])
      (fun _ => solvers.Sol.mk [0] [0]) 0).1 (by norm_num),
   (solve_alias_after_fix 1 2 (fun _ _ => solvers.Sol.mk [5] [6]) (fun _ => [0])
      (fun _ => solvers.Sol.mk [0] [0]) 0).2.2.1 7 (by norm_num)⟩
